import Mathlib

/-!
Verification of the MFEM maxwell miniapp's step quantizer (`SnapTimeStep`),
its driving loop's step-capping logic, the abstract operator-algebra
dimension contract (`linalg/matrix.hpp`), and the analytic current-source
functions (`current_src`, `voltaic_pile`, `current_ring`).

The C++ code computes with `double`; we embed its arithmetic exactly over
`ℚ` (for the quantizer, whose operations are ratios, `ceil(log10 ·)`, integer
powers, truncating casts, `min`/`max`) and over `ℝ` (for the source
functions, which use square roots and `sin`).  `ceil(log10 r)` is embedded
as `Int.clog 10 r`, the least `k` with `r ≤ 10^k`.
-/

namespace MfemMaxwell

/-- Embedding of the C cast `(int)pow(10, a)` in exact arithmetic:
the double `pow(10, a)` is `10^a`, and the cast truncates toward zero,
which for the positive value `10^a` is the floor.  In particular the
result is `0` whenever `a < 0`. -/
def truncPow10 (a : ℤ) : ℤ := ⌊(10 : ℚ) ^ a⌋

/-- Candidate from the first line of `SnapTimeStep`
(`maxwell.cpp:769`): `nsteps = pow(10, (int)ceil(log10(dsteps)))`,
truncated to `int`. -/
def snapCand0 (dsteps : ℚ) : ℤ := truncPow10 (Int.clog 10 dsteps)

/-- Candidate from iteration `i` of the loop in `SnapTimeStep`
(`maxwell.cpp:771-777`):
`a = (int)ceil(log10(dsteps / pow(5,i)))`;
`nstepsi = (int)pow(5,i) * max(1, (int)pow(10,a))`. -/
def snapCand (dsteps : ℚ) (i : ℕ) : ℤ :=
  5 ^ i * max 1 (truncPow10 (Int.clog 10 (dsteps / 5 ^ i)))

/-- Embedding of `SnapTimeStep`'s returned step count (`maxwell.cpp:764-782`):
`dsteps = tmax / dtmax`, then the running `min` of the initial power-of-ten
candidate and the five loop candidates, with the loop `i = 1..5` unrolled. -/
def SnapNSteps (tmax dtmax : ℚ) : ℤ :=
  let dsteps := tmax / dtmax
  min (min (min (min (min (snapCand0 dsteps) (snapCand dsteps 1))
    (snapCand dsteps 2)) (snapCand dsteps 3)) (snapCand dsteps 4))
    (snapCand dsteps 5)

/-- Embedding of the full `SnapTimeStep` call: the returned step count
together with the out-parameter `dt = tmax / nsteps` (`maxwell.cpp:779`).
The division is a floating-point division by the returned `int`; when the
returned step count is `0` the quotient `tmax / 0` is not a rational
number (IEEE infinity), so the embedding is partial and returns `none`
in that case. -/
def SnapTimeStep (tmax dtmax : ℚ) : Option (ℤ × ℚ) :=
  let nsteps := SnapNSteps tmax dtmax
  if nsteps = 0 then none else some (nsteps, tmax / nsteps)

/-- Candidate of the spec's description, in exact arithmetic:
`5^i · max(1, 10^ceil(log10(rawSteps / 5^i)))`.  This follows the spec's
words (a rational-valued candidate, no truncating integer cast) and is
compared against the code's `snapCand`. -/
def specCand (raw : ℚ) (i : ℕ) : ℚ :=
  5 ^ i * max 1 ((10 : ℚ) ^ Int.clog 10 (raw / 5 ^ i))

/-- Candidate set of the spec's description: the plain power-of-ten
candidate `10^ceil(log10(rawSteps))` together with the family
`5^i · max(1, 10^ceil(log10(rawSteps / 5^i)))` for `i = 1..5`. -/
def specCands (raw : ℚ) : Set ℚ :=
  {c | c = (10 : ℚ) ^ Int.clog 10 raw ∨ ∃ i : ℕ, 1 ≤ i ∧ i ≤ 5 ∧ c = specCand raw i}

lemma clog10_eq_of_bounds {r : ℚ} {z : ℤ} (hr : 0 < r)
    (h1 : r ≤ (10 : ℚ) ^ z) (h2 : (10 : ℚ) ^ (z - 1) < r) : Int.clog 10 r = z := by
  have hb : 1 < 10 := by norm_num
  have hle : Int.clog 10 r ≤ z := by
    refine (Int.le_zpow_iff_clog_le hb hr).1 ?_
    exact_mod_cast h1
  have hlt : z - 1 < Int.clog 10 r := by
    refine (Int.zpow_lt_iff_lt_clog hb hr).1 ?_
    exact_mod_cast h2
  omega

lemma truncPow10_of_nonneg {a : ℤ} (h : 0 ≤ a) : truncPow10 a = 10 ^ a.toNat := by
  obtain ⟨n, rfl⟩ := Int.eq_ofNat_of_zero_le h
  rw [truncPow10, Int.toNat_natCast, zpow_natCast,
    show ((10 : ℚ) ^ n) = (((10 ^ n : ℤ) : ℚ)) by push_cast; ring, Int.floor_intCast]

lemma truncPow10_of_neg {a : ℤ} (h : a < 0) : truncPow10 a = 0 := by
  rw [truncPow10, Int.floor_eq_zero_iff]
  constructor
  · positivity
  · calc (10 : ℚ) ^ a < 10 ^ (0 : ℤ) := zpow_lt_zpow_right₀ (by norm_num) h
      _ = 1 := zpow_zero _

lemma zpow_toNat_of_nonneg {a : ℤ} (h : 0 ≤ a) : (10 : ℚ) ^ a = (10 : ℚ) ^ a.toNat := by
  rw [← zpow_natCast, Int.toNat_of_nonneg h]

/-- The code's loop candidate agrees with the spec's candidate for every
positive ratio: the truncating `int` cast in `(int)pow(10,a)` is repaired
by the `max(1, ·)`. -/
lemma snapCand_cast (ds : ℚ) (i : ℕ) : ((snapCand ds i : ℤ) : ℚ) = specCand ds i := by
  rcases le_or_lt 0 (Int.clog 10 (ds / 5 ^ i)) with h | h
  · rw [snapCand, specCand, truncPow10_of_nonneg h, zpow_toNat_of_nonneg h]
    push_cast
    ring
  · have hle : (10 : ℚ) ^ Int.clog 10 (ds / 5 ^ i) ≤ 1 := by
      calc (10 : ℚ) ^ Int.clog 10 (ds / 5 ^ i) ≤ 10 ^ (0 : ℤ) :=
            zpow_le_zpow_right₀ (by norm_num) (by omega)
        _ = 1 := zpow_zero _
    rw [snapCand, specCand, truncPow10_of_neg h, max_eq_left hle,
      max_eq_left (by norm_num : (0 : ℤ) ≤ 1)]
    push_cast
    ring

lemma specCand_ge (ds : ℚ) (i : ℕ) : ds ≤ specCand ds i := by
  have h5 : (0 : ℚ) < 5 ^ i := by positivity
  have hc : ds / 5 ^ i ≤ (10 : ℚ) ^ Int.clog 10 (ds / 5 ^ i) := by
    exact_mod_cast Int.self_le_zpow_clog (b := 10) (by norm_num) (ds / 5 ^ i)
  calc ds = 5 ^ i * (ds / 5 ^ i) := by field_simp
    _ ≤ 5 ^ i * max 1 ((10 : ℚ) ^ Int.clog 10 (ds / 5 ^ i)) :=
        mul_le_mul_of_nonneg_left (hc.trans (le_max_right _ _)) h5.le
    _ = specCand ds i := rfl

lemma specCand0_ge (ds : ℚ) : ds ≤ (10 : ℚ) ^ Int.clog 10 ds := by
  exact_mod_cast Int.self_le_zpow_clog (b := 10) (by norm_num) ds

lemma one_le_snapCand (ds : ℚ) (i : ℕ) : 1 ≤ snapCand ds i := by
  rw [snapCand]
  have h1 : (1 : ℤ) ≤ 5 ^ i := one_le_pow₀ (by norm_num)
  have h2 : (1 : ℤ) ≤ max 1 (truncPow10 (Int.clog 10 (ds / 5 ^ i))) := le_max_left _ _
  calc (1 : ℤ) = 1 * 1 := (one_mul 1).symm
    _ ≤ 5 ^ i * max 1 (truncPow10 (Int.clog 10 (ds / 5 ^ i))) :=
        mul_le_mul h1 h2 zero_le_one (zero_le_one.trans h1)

lemma clog10_nonneg {ds : ℚ} (h : 1 / 10 < ds) : 0 ≤ Int.clog 10 ds := by
  have h0 : 0 < ds := lt_trans (by norm_num) h
  have h' : ((10 : ℕ) : ℚ) ^ (-1 : ℤ) < ds := by
    rw [show ((10 : ℕ) : ℚ) ^ (-1 : ℤ) = 1 / 10 by norm_num]
    exact h
  have := (Int.zpow_lt_iff_lt_clog (by norm_num) h0).1 h'
  omega

lemma snapCand0_cast {ds : ℚ} (h : 1 / 10 < ds) :
    ((snapCand0 ds : ℤ) : ℚ) = (10 : ℚ) ^ Int.clog 10 ds := by
  rw [snapCand0, truncPow10_of_nonneg (clog10_nonneg h),
    zpow_toNat_of_nonneg (clog10_nonneg h)]
  push_cast
  ring

lemma one_le_snapCand0 {ds : ℚ} (h : 1 / 10 < ds) : 1 ≤ snapCand0 ds := by
  rw [snapCand0, truncPow10_of_nonneg (clog10_nonneg h)]
  exact one_le_pow₀ (by norm_num)

lemma min6_cases (a b c d e f : ℤ) :
    min (min (min (min (min a b) c) d) e) f = a ∨
    min (min (min (min (min a b) c) d) e) f = b ∨
    min (min (min (min (min a b) c) d) e) f = c ∨
    min (min (min (min (min a b) c) d) e) f = d ∨
    min (min (min (min (min a b) c) d) e) f = e ∨
    min (min (min (min (min a b) c) d) e) f = f := by
  rcases min_choice (min (min (min (min a b) c) d) e) f with h5 | h5
  · rw [h5]
    rcases min_choice (min (min (min a b) c) d) e with h4 | h4
    · rw [h4]
      rcases min_choice (min (min a b) c) d with h3 | h3
      · rw [h3]
        rcases min_choice (min a b) c with h2 | h2
        · rw [h2]
          rcases min_choice a b with h1 | h1
          · exact Or.inl h1
          · exact Or.inr (Or.inl h1)
        · exact Or.inr (Or.inr (Or.inl h2))
      · exact Or.inr (Or.inr (Or.inr (Or.inl h3)))
    · exact Or.inr (Or.inr (Or.inr (Or.inr (Or.inl h4))))
  · exact Or.inr (Or.inr (Or.inr (Or.inr (Or.inr h5))))

lemma min6_le (a b c d e f : ℤ) :
    min (min (min (min (min a b) c) d) e) f ≤ a ∧
    min (min (min (min (min a b) c) d) e) f ≤ b ∧
    min (min (min (min (min a b) c) d) e) f ≤ c ∧
    min (min (min (min (min a b) c) d) e) f ≤ d ∧
    min (min (min (min (min a b) c) d) e) f ≤ e ∧
    min (min (min (min (min a b) c) d) e) f ≤ f := by
  refine ⟨?_, ?_, ?_, ?_, ?_, min_le_right _ _⟩
  · exact ((((min_le_left _ _).trans (min_le_left _ _)).trans
      (min_le_left _ _)).trans (min_le_left _ _)).trans (min_le_left _ _)
  · exact ((((min_le_left _ _).trans (min_le_left _ _)).trans
      (min_le_left _ _)).trans (min_le_left _ _)).trans (min_le_right _ _)
  · exact (((min_le_left _ _).trans (min_le_left _ _)).trans
      (min_le_left _ _)).trans (min_le_right _ _)
  · exact ((min_le_left _ _).trans (min_le_left _ _)).trans (min_le_right _ _)
  · exact (min_le_left _ _).trans (min_le_right _ _)

lemma le_min6 {g a b c d e f : ℤ} (ha : g ≤ a) (hb : g ≤ b) (hc : g ≤ c)
    (hd : g ≤ d) (he : g ≤ e) (hf : g ≤ f) :
    g ≤ min (min (min (min (min a b) c) d) e) f :=
  le_min (le_min (le_min (le_min (le_min ha hb) hc) hd) he) hf

lemma min6_eq_first {a b c d e f : ℤ} (hb : a ≤ b) (hc : a ≤ c) (hd : a ≤ d)
    (he : a ≤ e) (hf : a ≤ f) :
    min (min (min (min (min a b) c) d) e) f = a := by
  rw [min_eq_left hb, min_eq_left hc, min_eq_left hd, min_eq_left he,
    min_eq_left hf]

/-- The running `min` of `SnapTimeStep` equals one of the six candidates. -/
lemma snapNSteps_cases (tmax dtmax : ℚ) :
    SnapNSteps tmax dtmax = snapCand0 (tmax / dtmax) ∨
    SnapNSteps tmax dtmax = snapCand (tmax / dtmax) 1 ∨
    SnapNSteps tmax dtmax = snapCand (tmax / dtmax) 2 ∨
    SnapNSteps tmax dtmax = snapCand (tmax / dtmax) 3 ∨
    SnapNSteps tmax dtmax = snapCand (tmax / dtmax) 4 ∨
    SnapNSteps tmax dtmax = snapCand (tmax / dtmax) 5 := by
  simp only [SnapNSteps]
  exact min6_cases _ _ _ _ _ _

/-- The running `min` of `SnapTimeStep` is below each of the six candidates. -/
lemma snapNSteps_le (tmax dtmax : ℚ) :
    SnapNSteps tmax dtmax ≤ snapCand0 (tmax / dtmax) ∧
    SnapNSteps tmax dtmax ≤ snapCand (tmax / dtmax) 1 ∧
    SnapNSteps tmax dtmax ≤ snapCand (tmax / dtmax) 2 ∧
    SnapNSteps tmax dtmax ≤ snapCand (tmax / dtmax) 3 ∧
    SnapNSteps tmax dtmax ≤ snapCand (tmax / dtmax) 4 ∧
    SnapNSteps tmax dtmax ≤ snapCand (tmax / dtmax) 5 := by
  simp only [SnapNSteps]
  exact min6_le _ _ _ _ _ _

lemma one_le_snapNSteps {tmax dtmax : ℚ} (hr : 1 / 10 < tmax / dtmax) :
    1 ≤ SnapNSteps tmax dtmax := by
  simp only [SnapNSteps]
  exact le_min6 (one_le_snapCand0 hr) (one_le_snapCand (tmax / dtmax) 1)
    (one_le_snapCand (tmax / dtmax) 2) (one_le_snapCand (tmax / dtmax) 3)
    (one_le_snapCand (tmax / dtmax) 4) (one_le_snapCand (tmax / dtmax) 5)

/-- The step count rounds the naive ratio up: `rawSteps ≤ nsteps`. -/
lemma raw_le_snapNSteps {tmax dtmax : ℚ} (ht : 0 < tmax) (hd : 0 < dtmax)
    (hr : 1 / 10 < tmax / dtmax) :
    tmax / dtmax ≤ ((SnapNSteps tmax dtmax : ℤ) : ℚ) := by
  have hraw : 0 < tmax / dtmax := div_pos ht hd
  rcases snapNSteps_cases tmax dtmax with h | h | h | h | h | h <;> rw [h]
  · rw [snapCand0_cast hr]
    exact specCand0_ge _
  all_goals rw [snapCand_cast]
  · exact specCand_ge _ 1
  · exact specCand_ge _ 2
  · exact specCand_ge _ 3
  · exact specCand_ge _ 4
  · exact specCand_ge _ 5

lemma snapCand_eval {ds : ℚ} {i : ℕ} {z : ℤ} (hz : 0 ≤ z)
    (h : Int.clog 10 (ds / 5 ^ i) = z) : snapCand ds i = 5 ^ i * 10 ^ z.toNat := by
  rw [snapCand, h, truncPow10_of_nonneg hz, max_eq_right (one_le_pow₀ (by norm_num))]

lemma snapCand_eval_neg {ds : ℚ} {i : ℕ} {z : ℤ} (hz : z < 0)
    (h : Int.clog 10 (ds / 5 ^ i) = z) : snapCand ds i = 5 ^ i := by
  rw [snapCand, h, truncPow10_of_neg hz, max_eq_left (by norm_num), mul_one]

lemma snapNSteps_eval {tmax dtmax ds : ℚ} {c0 c1 c2 c3 c4 c5 : ℤ}
    (hds : tmax / dtmax = ds)
    (h0 : snapCand0 ds = c0) (h1 : snapCand ds 1 = c1) (h2 : snapCand ds 2 = c2)
    (h3 : snapCand ds 3 = c3) (h4 : snapCand ds 4 = c4) (h5 : snapCand ds 5 = c5) :
    SnapNSteps tmax dtmax =
      min (min (min (min (min c0 c1) c2) c3) c4) c5 := by
  simp only [SnapNSteps, hds, h0, h1, h2, h3, h4, h5]

/-- Evaluation at the degenerate ratio `1/100`: the quantizer returns `0`. -/
lemma snapNSteps_one_hundred : SnapNSteps 1 100 = 0 := by
  have hc : Int.clog 10 ((1 : ℚ) / 100) = -2 :=
    clog10_eq_of_bounds (by norm_num) (by norm_num) (by norm_num)
  have h0 : snapCand0 ((1 : ℚ) / 100) = 0 := by
    rw [snapCand0, hc, truncPow10_of_neg (by norm_num)]
  simp only [SnapNSteps]
  rw [h0]
  exact min6_eq_first
    (zero_le_one.trans (one_le_snapCand ((1 : ℚ) / 100) 1))
    (zero_le_one.trans (one_le_snapCand ((1 : ℚ) / 100) 2))
    (zero_le_one.trans (one_le_snapCand ((1 : ℚ) / 100) 3))
    (zero_le_one.trans (one_le_snapCand ((1 : ℚ) / 100) 4))
    (zero_le_one.trans (one_le_snapCand ((1 : ℚ) / 100) 5))

/-- Shared helper: for ratios above `1/10` the quantizer's step count is the
least candidate of the spec's candidate set that is at least the raw ratio. -/
lemma snap_isLeast {tmax dtmax : ℚ} (ht : 0 < tmax) (hd : 0 < dtmax)
    (hr : 1 / 10 < tmax / dtmax) :
    IsLeast {c | c ∈ specCands (tmax / dtmax) ∧ tmax / dtmax ≤ c}
      ((SnapNSteps tmax dtmax : ℤ) : ℚ) := by
  have hraw : 0 < tmax / dtmax := div_pos ht hd
  constructor
  · refine ⟨?_, raw_le_snapNSteps ht hd hr⟩
    simp only [specCands, Set.mem_setOf_eq]
    rcases snapNSteps_cases tmax dtmax with h | h | h | h | h | h <;> rw [h]
    · left
      rw [snapCand0_cast hr]
    · right
      exact ⟨1, by norm_num, by norm_num, by rw [snapCand_cast]⟩
    · right
      exact ⟨2, by norm_num, by norm_num, by rw [snapCand_cast]⟩
    · right
      exact ⟨3, by norm_num, by norm_num, by rw [snapCand_cast]⟩
    · right
      exact ⟨4, by norm_num, by norm_num, by rw [snapCand_cast]⟩
    · right
      exact ⟨5, by norm_num, by norm_num, by rw [snapCand_cast]⟩
  · rintro c ⟨hc, -⟩
    simp only [specCands, Set.mem_setOf_eq] at hc
    rcases hc with rfl | ⟨i, hi1, hi5, rfl⟩
    · rw [← snapCand0_cast hr]
      exact_mod_cast (snapNSteps_le tmax dtmax).1
    · interval_cases i
      · rw [← snapCand_cast]
        exact_mod_cast (snapNSteps_le tmax dtmax).2.1
      · rw [← snapCand_cast]
        exact_mod_cast (snapNSteps_le tmax dtmax).2.2.1
      · rw [← snapCand_cast]
        exact_mod_cast (snapNSteps_le tmax dtmax).2.2.2.1
      · rw [← snapCand_cast]
        exact_mod_cast (snapNSteps_le tmax dtmax).2.2.2.2.1
      · rw [← snapCand_cast]
        exact_mod_cast (snapNSteps_le tmax dtmax).2.2.2.2.2

/-- Shared helper: for ratios above `1/10` the full `SnapTimeStep` call
succeeds and returns the positive step count with `dt = tmax / nsteps`. -/
lemma snapTimeStep_eq_some {tmax dtmax : ℚ} (hr : 1 / 10 < tmax / dtmax) :
    SnapTimeStep tmax dtmax =
      some (SnapNSteps tmax dtmax, tmax / ((SnapNSteps tmax dtmax : ℤ) : ℚ)) := by
  have hn := one_le_snapNSteps hr
  simp only [SnapTimeStep]
  rw [if_neg (by omega)]

/-- Shared helper: the degenerate ratio `1/100` makes `SnapTimeStep` return
step count `0`, so the `dt` out-parameter is a division by zero. -/
lemma snapTimeStep_one_hundred : SnapTimeStep 1 100 = none := by
  simp only [SnapTimeStep]
  rw [if_pos snapNSteps_one_hundred]

/-- C1 (counterexample): as stated — for *every* positive duration and
positive maxStableStep — the claim fails: at `duration = 1`,
`maxStableStep = 100` (raw ratio `1/100`) the code's truncating cast
`(int)pow(10, -2)` yields `0`, so the returned step count is `0`, which is
not the least candidate `≥ 1/100` of the candidate set. -/
theorem C1_counterexample :
    (0 : ℚ) < 1 ∧ (0 : ℚ) < 100 ∧
      ¬ IsLeast {c | c ∈ specCands ((1 : ℚ) / 100) ∧ (1 : ℚ) / 100 ≤ c}
        ((SnapNSteps 1 100 : ℤ) : ℚ) := by
  refine ⟨by norm_num, by norm_num, fun h => ?_⟩
  have := h.1.2
  rw [snapNSteps_one_hundred] at this
  norm_num at this

/-- C1 (amended): for every positive duration and positive maxStableStep
whose raw ratio `duration / maxStableStep` exceeds `1/10`, the step count
returned by `SnapTimeStep` is the smallest element `≥ rawSteps` of the
candidate set consisting of `10^ceil(log10 rawSteps)` together with the
family `5^i · max(1, 10^ceil(log10(rawSteps / 5^i)))`, `i = 1..5`. -/
theorem C1_snap_least_round_candidate (tmax dtmax : ℚ) (ht : 0 < tmax)
    (hd : 0 < dtmax) (hr : 1 / 10 < tmax / dtmax) :
    IsLeast {c | c ∈ specCands (tmax / dtmax) ∧ tmax / dtmax ≤ c}
      ((SnapNSteps tmax dtmax : ℤ) : ℚ) :=
  snap_isLeast ht hd hr

/-- Witness for C1 at `duration = 1`, `maxStableStep = 1/2`. -/
theorem C1_witness :
    (0 : ℚ) < 1 ∧ (0 : ℚ) < 1 / 2 ∧ (1 : ℚ) / 10 < 1 / (1 / 2) ∧
      IsLeast {c | c ∈ specCands ((1 : ℚ) / (1 / 2)) ∧ (1 : ℚ) / (1 / 2) ≤ c}
        ((SnapNSteps 1 (1 / 2) : ℤ) : ℚ) :=
  ⟨by norm_num, by norm_num, by norm_num,
    C1_snap_least_round_candidate 1 (1 / 2) (by norm_num) (by norm_num) (by norm_num)⟩

/-- C2 (counterexample): at `duration = 1`, `maxStableStep = 100` the
returned step count is `0`, so the step size `duration / stepCount` is a
division by zero (IEEE infinity) — no rational step size `≤ maxStableStep`
is produced. -/
theorem C2_counterexample :
    (0 : ℚ) < 1 ∧ (0 : ℚ) < 100 ∧
      ¬ ∃ n dt, SnapTimeStep 1 100 = some (n, dt) ∧ dt ≤ 100 := by
  refine ⟨by norm_num, by norm_num, ?_⟩
  rintro ⟨n, dt, h, -⟩
  rw [snapTimeStep_one_hundred] at h
  exact Option.noConfusion h

/-- C2 (amended): for every positive duration and positive maxStableStep
whose raw ratio exceeds `1/10`, `SnapTimeStep` succeeds and the step size
written through its `dt` out-parameter is `≤ maxStableStep`. -/
theorem C2_dt_le_dtmax (tmax dtmax : ℚ) (ht : 0 < tmax) (hd : 0 < dtmax)
    (hr : 1 / 10 < tmax / dtmax) :
    ∃ n dt, SnapTimeStep tmax dtmax = some (n, dt) ∧ dt ≤ dtmax := by
  refine ⟨SnapNSteps tmax dtmax, tmax / ((SnapNSteps tmax dtmax : ℤ) : ℚ),
    snapTimeStep_eq_some hr, ?_⟩
  have hn : (0 : ℚ) < ((SnapNSteps tmax dtmax : ℤ) : ℚ) := by
    exact_mod_cast lt_of_lt_of_le zero_lt_one (one_le_snapNSteps hr)
  rw [div_le_iff₀ hn, mul_comm]
  exact (div_le_iff₀ hd).1 (raw_le_snapNSteps ht hd hr)

/-- Witness for C2 at `duration = 1`, `maxStableStep = 1/2`. -/
theorem C2_witness :
    (0 : ℚ) < 1 ∧ (0 : ℚ) < 1 / 2 ∧ (1 : ℚ) / 10 < 1 / (1 / 2) ∧
      ∃ n dt, SnapTimeStep 1 (1 / 2) = some (n, dt) ∧ dt ≤ 1 / 2 :=
  ⟨by norm_num, by norm_num, by norm_num,
    C2_dt_le_dtmax 1 (1 / 2) (by norm_num) (by norm_num) (by norm_num)⟩

/-- C3 (counterexample): at `duration = 1`, `maxStableStep = 100` the
returned step count is `0` and no step size at all is produced
(`duration / 0` is not a number), so `stepCount * stepSize = duration`
fails as stated. -/
theorem C3_counterexample :
    (0 : ℚ) < 1 ∧ (0 : ℚ) < 100 ∧
      ¬ ∃ n dt, SnapTimeStep 1 100 = some (n, dt) ∧ (n : ℚ) * dt = 1 := by
  refine ⟨by norm_num, by norm_num, ?_⟩
  rintro ⟨n, dt, h, -⟩
  rw [snapTimeStep_one_hundred] at h
  exact Option.noConfusion h

/-- C3 (amended): for every positive duration and positive maxStableStep
whose raw ratio exceeds `1/10`, the quantizer's outputs satisfy
`stepCount * stepSize = duration` exactly, and the step count is the naive
ratio rounded up: `duration / maxStableStep ≤ stepCount`. -/
theorem C3_product_exact (tmax dtmax : ℚ) (ht : 0 < tmax) (hd : 0 < dtmax)
    (hr : 1 / 10 < tmax / dtmax) :
    ∃ n dt, SnapTimeStep tmax dtmax = some (n, dt) ∧ (n : ℚ) * dt = tmax ∧
      tmax / dtmax ≤ (n : ℚ) := by
  refine ⟨SnapNSteps tmax dtmax, tmax / ((SnapNSteps tmax dtmax : ℤ) : ℚ),
    snapTimeStep_eq_some hr, ?_, raw_le_snapNSteps ht hd hr⟩
  have hn : ((SnapNSteps tmax dtmax : ℤ) : ℚ) ≠ 0 := by
    have := one_le_snapNSteps hr
    exact_mod_cast by omega
  field_simp

/-- Witness for C3 at `duration = 1`, `maxStableStep = 1/2`. -/
theorem C3_witness :
    (0 : ℚ) < 1 ∧ (0 : ℚ) < 1 / 2 ∧ (1 : ℚ) / 10 < 1 / (1 / 2) ∧
      ∃ n dt, SnapTimeStep 1 (1 / 2) = some (n, dt) ∧ (n : ℚ) * dt = 1 ∧
        (1 : ℚ) / (1 / 2) ≤ (n : ℚ) :=
  ⟨by norm_num, by norm_num, by norm_num,
    C3_product_exact 1 (1 / 2) (by norm_num) (by norm_num) (by norm_num)⟩

/-- C4 (counterexample): at the positive inputs `duration = 1`,
`maxStableStep = 100` the quantizer returns step count `0`, not a positive
integer, and the defining division `stepSize = duration / stepCount`
divides by zero. -/
theorem C4_counterexample :
    (0 : ℚ) < 1 ∧ (0 : ℚ) < 100 ∧ ¬ (1 ≤ SnapNSteps 1 100) := by
  refine ⟨by norm_num, by norm_num, ?_⟩
  rw [snapNSteps_one_hundred]
  norm_num

/-- C4 (amended): for every positive duration and positive maxStableStep
whose raw ratio exceeds `1/10`, the quantizer returns a step count `≥ 1`,
the division defining the step size is not a division by zero, and the
resulting step size is positive. -/
theorem C4_stepcount_positive (tmax dtmax : ℚ) (ht : 0 < tmax) (hd : 0 < dtmax)
    (hr : 1 / 10 < tmax / dtmax) :
    1 ≤ SnapNSteps tmax dtmax ∧
      ∃ dt, SnapTimeStep tmax dtmax = some (SnapNSteps tmax dtmax, dt) ∧ 0 < dt := by
  refine ⟨one_le_snapNSteps hr,
    tmax / ((SnapNSteps tmax dtmax : ℤ) : ℚ), snapTimeStep_eq_some hr, ?_⟩
  have hn : (0 : ℚ) < ((SnapNSteps tmax dtmax : ℤ) : ℚ) := by
    exact_mod_cast lt_of_lt_of_le zero_lt_one (one_le_snapNSteps hr)
  exact div_pos ht hn

/-- Witness for C4 at `duration = 1`, `maxStableStep = 1/2`. -/
theorem C4_witness :
    (0 : ℚ) < 1 ∧ (0 : ℚ) < 1 / 2 ∧ (1 : ℚ) / 10 < 1 / (1 / 2) ∧
      (1 ≤ SnapNSteps 1 (1 / 2) ∧
        ∃ dt, SnapTimeStep 1 (1 / 2) = some (SnapNSteps 1 (1 / 2), dt) ∧ 0 < dt) :=
  ⟨by norm_num, by norm_num, by norm_num,
    C4_stepcount_positive 1 (1 / 2) (by norm_num) (by norm_num) (by norm_num)⟩

/-- Evaluation of the quantizer at the spec's example:
`duration = 40`, `maxStableStep = 4.025e-3 = 161/40000`, raw ratio
`1600000/161 ≈ 9937.9`.  The candidates are `10000, 50000, 25000, 12500,
62500, 31250`, so the minimum is `10000`. -/
lemma snapNSteps_example : SnapNSteps 40 (161 / 40000) = 10000 := by
  have hds : (40 : ℚ) / (161 / 40000) = 1600000 / 161 := by norm_num
  have h0 : snapCand0 ((1600000 : ℚ) / 161) = 10000 := by
    rw [snapCand0,
      clog10_eq_of_bounds (z := 4) (by norm_num) (by norm_num) (by norm_num),
      truncPow10_of_nonneg (by norm_num)]
    decide
  have h1 : snapCand ((1600000 : ℚ) / 161) 1 = 50000 := by
    rw [snapCand_eval (z := 4) (by norm_num)
      (clog10_eq_of_bounds (by norm_num) (by norm_num) (by norm_num))]
    decide
  have h2 : snapCand ((1600000 : ℚ) / 161) 2 = 25000 := by
    rw [snapCand_eval (z := 3) (by norm_num)
      (clog10_eq_of_bounds (by norm_num) (by norm_num) (by norm_num))]
    decide
  have h3 : snapCand ((1600000 : ℚ) / 161) 3 = 12500 := by
    rw [snapCand_eval (z := 2) (by norm_num)
      (clog10_eq_of_bounds (by norm_num) (by norm_num) (by norm_num))]
    decide
  have h4 : snapCand ((1600000 : ℚ) / 161) 4 = 62500 := by
    rw [snapCand_eval (z := 2) (by norm_num)
      (clog10_eq_of_bounds (by norm_num) (by norm_num) (by norm_num))]
    decide
  have h5 : snapCand ((1600000 : ℚ) / 161) 5 = 31250 := by
    rw [snapCand_eval (z := 1) (by norm_num)
      (clog10_eq_of_bounds (by norm_num) (by norm_num) (by norm_num))]
    decide
  rw [snapNSteps_eval hds h0 h1 h2 h3 h4 h5]
  exact min6_eq_first (by norm_num) (by norm_num) (by norm_num) (by norm_num)
    (by norm_num)

/-- C5: for `duration = 40` and `maxStableStep = 4.025e-3` (raw ratio
`1600000/161 ≈ 9937.9`), the quantizer returns step count `10000` — the
least candidate `≥ rawSteps` of the candidate set — with step size
`40 / 10000 = 1/250`, and `stepSize * stepCount = 40` exactly with
`stepSize ≤ 4.025e-3`. -/
theorem C5_example_run :
    SnapTimeStep 40 (161 / 40000) = some (10000, 1 / 250) ∧
      IsLeast {c | c ∈ specCands ((40 : ℚ) / (161 / 40000)) ∧
          (40 : ℚ) / (161 / 40000) ≤ c} ((10000 : ℤ) : ℚ) ∧
      ((1 : ℚ) / 250) * ((10000 : ℤ) : ℚ) = 40 ∧ ((1 : ℚ) / 250) ≤ 161 / 40000 := by
  refine ⟨?_, ?_, by norm_num, by norm_num⟩
  · rw [snapTimeStep_eq_some (by norm_num), snapNSteps_example]
    norm_num
  · have h := @snap_isLeast 40 (161 / 40000)
      (by norm_num) (by norm_num) (by norm_num)
    rwa [snapNSteps_example] at h

/-- Embedding of the driver's step-count capping (`maxwell.cpp:398-402`):
`if (nsteps > max_its) { <diagnostic>; nsteps = max_its; }`. -/
def cappedNSteps (nsteps max_its : ℤ) : ℤ :=
  if max_its < nsteps then max_its else nsteps

/-- Embedding of the diagnostic emission in the same branch
(`maxwell.cpp:400`): the message is printed exactly when the quantized
step count exceeds the cap. -/
def capDiagnostic (nsteps max_its : ℤ) : Bool :=
  decide (max_its < nsteps)

/-- Embedding of the time-evolution loop's iteration count
(`maxwell.cpp:440`): `for (int it = 1; it <= nsteps; it++)` performs
`max(0, nsteps)` iterations, each making one `siaSolver.Step` call. -/
def timeLoopIterations (nsteps : ℤ) : ℕ := nsteps.toNat

/-- C6: with a nonnegative quantized step count and a nonnegative cap, the
time loop makes exactly `min(stepCount, iterationCap)` integrator-step
calls; when the count exceeds the cap the diagnostic is emitted and the
count is replaced by the cap (non-fatal), and otherwise no diagnostic is
emitted and the count is kept. -/
theorem C6_loop_runs_min_steps (nsteps max_its : ℤ) (hn : 0 ≤ nsteps)
    (hm : 0 ≤ max_its) :
    (timeLoopIterations (cappedNSteps nsteps max_its) : ℤ) = min nsteps max_its ∧
    (max_its < nsteps →
      capDiagnostic nsteps max_its = true ∧ cappedNSteps nsteps max_its = max_its) ∧
    (nsteps ≤ max_its →
      capDiagnostic nsteps max_its = false ∧ cappedNSteps nsteps max_its = nsteps) := by
  simp only [timeLoopIterations, cappedNSteps, capDiagnostic, decide_eq_true_eq,
    decide_eq_false_iff_not, not_lt]
  rcases lt_or_le max_its nsteps with h | h
  · rw [if_pos h, Int.toNat_of_nonneg hm, min_eq_right h.le]
    exact ⟨rfl, fun _ => ⟨h, rfl⟩, fun h' => absurd h' (not_le.2 h)⟩
  · rw [if_neg (not_lt.2 h), Int.toNat_of_nonneg hn, min_eq_left h]
    exact ⟨rfl, fun h' => absurd h' (not_lt.2 h), fun _ => ⟨h, rfl⟩⟩

/-- Witness for C6 at `nsteps = 10000`, `max_its = 100` (the capped case). -/
theorem C6_witness :
    (0 : ℤ) ≤ 10000 ∧ (0 : ℤ) ≤ 100 ∧
      ((timeLoopIterations (cappedNSteps 10000 100) : ℤ) = min 10000 100 ∧
        ((100 : ℤ) < 10000 →
          capDiagnostic 10000 100 = true ∧ cappedNSteps 10000 100 = 100) ∧
        ((10000 : ℤ) ≤ 100 →
          capDiagnostic 10000 100 = false ∧ cappedNSteps 10000 100 = 10000)) :=
  ⟨by norm_num, by norm_num, C6_loop_runs_min_steps 10000 100 (by norm_num) (by norm_num)⟩

/-- Failure taxonomy of the operator-algebra contract (spec section 7). -/
inductive OperatorFailure
  | DimensionMismatch
  | OutOfRange
  | StructuralError
  | InvalidArgument
deriving DecidableEq

/-- An operator variant of the operator-algebra contract: a fixed output
dimension (`height`), a fixed input dimension (`width`), and the linear
map it applies (`matrix.hpp` declares `Mult` as pure virtual on
`AbstractSparseMatrix`; concrete variants are outside `src/`). -/
structure LinearOperatorModel where
  height : ℕ
  width : ℕ
  app : List ℚ → List ℚ

/-- Modelled from the spec: the concrete implementations of the pure
virtual `Mult` (`matrix.hpp:94` declares it only) are not under `src/`;
per the spec, `apply(x) → y` requires `len(x) == width` and
`len(y) == height` and fails with `DimensionMismatch` otherwise. -/
def LinearOperatorModel.Mult (A : LinearOperatorModel) (x y : List ℚ) :
    Except OperatorFailure (List ℚ) :=
  if x.length = A.width ∧ y.length = A.height then Except.ok (A.app x)
  else Except.error OperatorFailure.DimensionMismatch

/-- C7: for every operator variant, applying `Mult` to an input vector
whose length differs from the operator's width, or an output vector whose
length differs from its height, fails with `DimensionMismatch` — the
vectors are never silently truncated or padded. -/
theorem C7_mult_dimension_mismatch (A : LinearOperatorModel) (x y : List ℚ)
    (h : x.length ≠ A.width ∨ y.length ≠ A.height) :
    A.Mult x y = Except.error OperatorFailure.DimensionMismatch := by
  rw [LinearOperatorModel.Mult, if_neg]
  rintro ⟨h1, h2⟩
  rcases h with h | h
  · exact h h1
  · exact h h2

/-- Witness for C7: a `2 × 3` operator applied to a length-1 input. -/
theorem C7_witness :
    LinearOperatorModel.Mult ⟨2, 3, fun v => [v.sum, 0]⟩ [1] [0, 0] =
      Except.error OperatorFailure.DimensionMismatch :=
  C7_mult_dimension_mismatch ⟨2, 3, fun v => [v.sum, 0]⟩ [1] [0, 0]
    (Or.inl (by norm_num))

/-- A `Matrix` of the hierarchy: construction dimensions plus element
access (`matrix.hpp:27-54`); the elements play no role in the inverse's
construction. -/
structure MatrixModel where
  height : ℕ
  width : ℕ
  elem : ℕ → ℕ → ℚ

/-- Dimension record of a constructed `Solver`/`Operator` base object.
Modelled from the spec: the `Solver`/`Operator` base classes
(`operator.hpp`) are not under `src/`; per the spec an `Operator` stores
exactly its construction dimensions, immutable afterwards. -/
structure SolverShape where
  height : ℕ
  width : ℕ

/-- Embedding of the `MatrixInverse(const Matrix &mat)` constructor
(`matrix.hpp:64-65`): it forwards exactly `mat.height` and `mat.width` to
its `Solver` base object and stores nothing else. -/
def MatrixInverse.ofMatrix (mat : MatrixModel) : SolverShape :=
  ⟨mat.height, mat.width⟩

/-- C8: a `MatrixInverse` constructed from a matrix records exactly the
dimensions of its source — its height and width equal the source's — and
it is a dimension-only record: two sources with equal dimensions yield
identical inverse records regardless of their elements. -/
theorem C8_inverse_records_dimensions (mat : MatrixModel) :
    (MatrixInverse.ofMatrix mat).height = mat.height ∧
    (MatrixInverse.ofMatrix mat).width = mat.width ∧
    ∀ mat' : MatrixModel, mat.height = mat'.height → mat.width = mat'.width →
      MatrixInverse.ofMatrix mat = MatrixInverse.ofMatrix mat' := by
  refine ⟨rfl, rfl, fun mat' h1 h2 => ?_⟩
  rw [MatrixInverse.ofMatrix, MatrixInverse.ofMatrix, h1, h2]

/-- Witness for C8: two `2 × 2` matrices with different elements produce
the same dimension record. -/
theorem C8_witness :
    MatrixInverse.ofMatrix ⟨2, 2, fun _ _ => 0⟩ =
      MatrixInverse.ofMatrix ⟨2, 2, fun i j => (i : ℚ) + j⟩ :=
  (C8_inverse_records_dimensions ⟨2, 2, fun _ _ => 0⟩).2.2
    ⟨2, 2, fun i j => (i : ℚ) + j⟩ rfl rfl

/-- Dot product of two coefficient vectors (MFEM `Vector::operator*`). -/
def dot (u v : List ℝ) : ℝ := (List.zipWith (· * ·) u v).sum

/-- Elementwise sum of two coefficient vectors. -/
def vecAdd (u v : List ℝ) : List ℝ := List.zipWith (· + ·) u v

/-- Scalar multiple of a coefficient vector (MFEM `Vector::Add` summand
and `Vector::operator*=`). -/
def smulVec (c : ℝ) (v : List ℝ) : List ℝ := v.map (fun e => c * e)

/-- Axis vector `a` assembled in both source functions
(`maxwell.cpp:565-569` and `611-615`): `a[i] = params[n+i] - params[i]`
for `i < n`, where `n = x.Size()`.  Out-of-range parameter reads
(`operator[]` without bounds checks in C++) are embedded with default
value `0`. -/
def axisVec (params : List ℝ) (n : ℕ) : List ℝ :=
  (List.range n).map fun i => params.getD (n + i) 0 - params.getD i 0

/-- Offset vector `xu` of both source functions: `xu[i] = x[i] - params[i]`. -/
def offsetVec (params : List ℝ) (x : List ℝ) : List ℝ :=
  (List.range x.length).map fun i => x.getD i 0 - params.getD i 0

/-- Body of `voltaic_pile` after the `h == 0` early return
(`maxwell.cpp:578-593`): the point is tested against the cylinder, the
axial polarization is added to the zeroed output, and the result is
scaled by the sinusoidal time factor. -/
noncomputable def voltaic_pile_main (vp : List ℝ) (x : List ℝ) (t : ℝ)
    (a : List ℝ) (h : ℝ) : List ℝ :=
  let n := x.length
  let p : List ℝ := List.replicate n 0
  let xu := offsetVec vp x
  let r := vp.getD (2 * n) 0
  let xa := dot xu a
  let xu2 := if 0 < h then vecAdd xu (smulVec (-xa / (h * h)) a) else xu
  let xp := Real.sqrt (dot xu2 xu2)
  let p2 :=
    if 0 ≤ xa ∧ xa ≤ h * h ∧ xp ≤ r then
      vecAdd p (smulVec (vp.getD (2 * n + 1) 0 / h) a)
    else p
  smulVec (Real.sin (2 * Real.pi * vp.getD (2 * n + 2) 0 * t)) p2

/-- Embedding of `voltaic_pile` (`maxwell.cpp:555-594`).  The output is
first sized to `x.Size()` and zeroed; the axis vector `a` is assembled
from the parameter vector `vp`; `h = ‖a‖₂`; if `h == 0` the function
returns the zeroed output, otherwise it falls through to
`voltaic_pile_main`. -/
noncomputable def voltaic_pile (vp : List ℝ) (x : List ℝ) (t : ℝ) : List ℝ :=
  let a := axisVec vp x.length
  let h : ℝ := Real.sqrt (dot a a)
  if h = 0 then List.replicate x.length 0
  else voltaic_pile_main vp x t a h

/-- Body of `current_ring` after the `h == 0` early return
(`maxwell.cpp:624-651`): the radii are swapped if given in the wrong
order, the point is tested against the annulus, the azimuthal
(cross-product) current direction scaled by `I / (h·(rb-ra))` is added to
the zeroed output, and the result is scaled by the sinusoidal time
factor.  `ju` receives its three assigned components (the source asserts
a 3D space). -/
noncomputable def current_ring_main (cr : List ℝ) (x : List ℝ) (t : ℝ)
    (a : List ℝ) (h : ℝ) : List ℝ :=
  let n := x.length
  let j : List ℝ := List.replicate n 0
  let xu := offsetVec cr x
  let ra0 := cr.getD (2 * n) 0
  let rb0 := cr.getD (2 * n + 1) 0
  let ra := if rb0 < ra0 then rb0 else ra0
  let rb := if rb0 < ra0 then ra0 else rb0
  let xa := dot xu a
  let xu2 := if 0 < h then vecAdd xu (smulVec (-xa / (h * h)) a) else xu
  let xp := Real.sqrt (dot xu2 xu2)
  let j2 :=
    if 0 ≤ xa ∧ xa ≤ h * h ∧ ra ≤ xp ∧ xp ≤ rb then
      let ju : List ℝ := smulVec (1 / h)
        [a.getD 1 0 * xu2.getD 2 0 - a.getD 2 0 * xu2.getD 1 0,
         a.getD 2 0 * xu2.getD 0 0 - a.getD 0 0 * xu2.getD 2 0,
         a.getD 0 0 * xu2.getD 1 0 - a.getD 1 0 * xu2.getD 0 0]
      vecAdd j (smulVec (cr.getD (2 * n + 2) 0 / (h * (rb - ra))) ju)
    else j
  smulVec (Real.sin (2 * Real.pi * cr.getD (2 * n + 3) 0 * t)) j2

/-- Embedding of `current_ring` (`maxwell.cpp:598-652`).  Same structure
as `voltaic_pile`: zero the output, build the axis, early-return when
`h == 0`, otherwise fall through to `current_ring_main`. -/
noncomputable def current_ring (cr : List ℝ) (x : List ℝ) (t : ℝ) : List ℝ :=
  let a := axisVec cr x.length
  let h : ℝ := Real.sqrt (dot a a)
  if h = 0 then List.replicate x.length 0
  else current_ring_main cr x t a h

/-- Embedding of `current_src` (`maxwell.cpp:55-75`), parameterized by the
two global parameter vectors `vp_params_` and `cr_params_` and by the
incoming contents `j` of the output vector.  When the product of the
parameter sizes is zero, each configured contribution (if any) overwrites
`j` in turn; otherwise `voltaic_pile` overwrites `j` and the fresh
`current_ring` vector is added to it. -/
noncomputable def current_src (vpP crP : List ℝ) (x : List ℝ) (t : ℝ)
    (j : List ℝ) : List ℝ :=
  if vpP.length * crP.length = 0 then
    let j1 := if 0 < vpP.length then voltaic_pile vpP x t else j
    if 0 < crP.length then current_ring crP x t else j1
  else
    vecAdd (voltaic_pile vpP x t) (current_ring crP x t)

/-- C9: the combined source is the sum of the two contributions when both
parameter vectors are non-empty, exactly the configured contribution when
exactly one is non-empty, and leaves the output vector untouched when both
are empty. -/
theorem C9_current_src_dispatch (vpP crP x : List ℝ) (t : ℝ) (j : List ℝ) :
    (vpP.length ≠ 0 ∧ crP.length ≠ 0 →
      current_src vpP crP x t j =
        vecAdd (voltaic_pile vpP x t) (current_ring crP x t)) ∧
    (vpP.length ≠ 0 ∧ crP.length = 0 →
      current_src vpP crP x t j = voltaic_pile vpP x t) ∧
    (vpP.length = 0 ∧ crP.length ≠ 0 →
      current_src vpP crP x t j = current_ring crP x t) ∧
    (vpP.length = 0 ∧ crP.length = 0 → current_src vpP crP x t j = j) := by
  refine ⟨fun ⟨h1, h2⟩ => ?_, fun ⟨h1, h2⟩ => ?_, fun ⟨h1, h2⟩ => ?_,
    fun ⟨h1, h2⟩ => ?_⟩ <;> simp only [current_src]
  · rw [if_neg (Nat.mul_ne_zero h1 h2)]
  · rw [if_pos (Nat.mul_eq_zero.2 (Or.inr h2)), if_neg (by omega), if_pos (by omega)]
  · rw [if_pos (Nat.mul_eq_zero.2 (Or.inl h1)), if_pos (by omega)]
  · rw [if_pos (Nat.mul_eq_zero.2 (Or.inl h1)), if_neg (by omega), if_neg (by omega)]

/-- Witness for C9: both parameter vectors empty, the output vector `[5]`
is returned untouched. -/
theorem C9_witness : current_src [] [] [(1 : ℝ)] 0 [5] = [5] :=
  (C9_current_src_dispatch [] [] [(1 : ℝ)] 0 [5]).2.2.2 ⟨rfl, rfl⟩

lemma axis_replicate_zero {params : List ℝ} {n : ℕ}
    (h : ∀ i < n, params.getD (n + i) 0 = params.getD i 0) :
    axisVec params n = List.replicate n 0 := by
  refine List.eq_replicate_iff.2 ⟨by simp [axisVec], fun b hb => ?_⟩
  simp only [axisVec, List.mem_map, List.mem_range] at hb
  obtain ⟨i, hi, rfl⟩ := hb
  rw [h i hi]
  ring

lemma dot_replicate_zero (n : ℕ) : dot (List.replicate n 0) (List.replicate n 0) = 0 := by
  induction n with
  | zero => rfl
  | succ k ih =>
    simp only [dot, List.replicate_succ, List.zipWith_cons_cons, List.sum_cons] at *
    rw [ih]
    ring

/-- C10: when the configured axis end points coincide the axis vector has
`h = ‖a‖₂ = 0`, and both source functions take the early return right
after zeroing the output: each returns the zero vector of length
`len(x)`, and the divisions by `h` (and by `rb - ra`) further down are
never reached. -/
theorem C10_degenerate_axis_returns_zero (vpP crP x : List ℝ) (t : ℝ)
    (hvp : ∀ i < x.length, vpP.getD (x.length + i) 0 = vpP.getD i 0)
    (hcr : ∀ i < x.length, crP.getD (x.length + i) 0 = crP.getD i 0) :
    voltaic_pile vpP x t = List.replicate x.length 0 ∧
    current_ring crP x t = List.replicate x.length 0 := by
  constructor
  · simp only [voltaic_pile]
    rw [axis_replicate_zero hvp, dot_replicate_zero, Real.sqrt_zero, if_pos rfl]
  · simp only [current_ring]
    rw [axis_replicate_zero hcr, dot_replicate_zero, Real.sqrt_zero, if_pos rfl]

/-- Witness for C10: coinciding axis end points `(1,2)` and `(1,2)` in a
2D space; both sources return the zero vector of length 2. -/
theorem C10_witness :
    (∀ i < 2, List.getD [(1 : ℝ), 2, 1, 2] (2 + i) 0 = List.getD [(1 : ℝ), 2, 1, 2] i 0) ∧
      (voltaic_pile [(1 : ℝ), 2, 1, 2] [0, 0] 3 = List.replicate 2 0 ∧
        current_ring [(1 : ℝ), 2, 1, 2] [0, 0] 3 = List.replicate 2 0) :=
  ⟨fun i hi => by interval_cases i <;> rfl,
    C10_degenerate_axis_returns_zero [(1 : ℝ), 2, 1, 2] [(1 : ℝ), 2, 1, 2] [0, 0] 3
      (fun i hi => by
        have h2 : i < 2 := by simpa using hi
        interval_cases i <;> rfl)
      (fun i hi => by
        have h2 : i < 2 := by simpa using hi
        interval_cases i <;> rfl)⟩

end MfemMaxwell
